import Mathlib

/-
Verification of the project-graph construction core of the nx repository.

The definitions below are a shallow embedding of
  packages/nx/src/project-graph/build-project-graph.ts and
  packages/nx/src/command-line/import/utils/check-compatible-with-plugins.ts.
Effectful subcalls (plugin invocations, file reads) are modelled by explicit
outcome parameters; the nondeterministic completion order of concurrently
launched provider invocations is modelled by an explicit settled-order list.
Functions of the repository that are referenced but whose source files are not
part of the analyzed sources (the ProjectGraphBuilder, nx-deps-cache and
mergeMetadata) are modelled from the specification text and marked as such in
their doc comments.
-/

namespace Nx

/-- Inserts a file into a JS-Set-like list: appended only when absent. -/
def insertFile (l : List String) (f : String) : List String :=
  if f ∈ l then l else l ++ [f]

/-- Adds every file of a list into a JS-Set-like list, in order. -/
def addFilesToSet (l : List String) (fs : List String) : List String :=
  fs.foldl insertFile l

/-- Adds files to the Set stored under a plugin name in an insertion-ordered
map, creating the entry when absent.  Models
pluginNametoExcludeFiles[pluginName] ??= new Set(); followed by adding each
file of excludeFiles. -/
def addEntry : List (String × List String) → String → List String → List (String × List String)
  | [], p, fs => [(p, addFilesToSet [] fs)]
  | (q, l) :: rest, p, fs =>
    if q = p then (q, addFilesToSet l fs) :: rest
    else (q, l) :: addEntry rest p fs

/-- Looks up the file Set stored under a plugin name; empty when absent. -/
def lookupFiles : List (String × List String) → String → List String
  | [], _ => []
  | e :: rest, p => if e.1 = p then e.2 else lookupFiles rest p

/-- Generic lookup in an insertion-ordered string-keyed association list. -/
def lookupAssoc {α : Type} : List (String × α) → String → Option α
  | [], _ => none
  | e :: rest, k => if e.1 = k then some e.2 else lookupAssoc rest k

/-- Generic update of an insertion-ordered string-keyed association list:
replaces the first entry with the key, or appends a new entry. -/
def setAssoc {α : Type} : List (String × α) → String → α → List (String × α)
  | [], k, v => [(k, v)]
  | e :: rest, k, v =>
    if e.1 = k then (e.1, v) :: rest
    else e :: setAssoc rest k v

/-! ### Compatibility probe (check-compatible-with-plugins.ts) -/

/-- The error kinds a ProjectConfigurationsError can carry, as discriminated by
the probe.  An AggregateCreateNodesError carries per-file sub-errors whose
first components are the offending files (possibly undefined); a
MergeNodesError carries a single file; every other kind is opaque to the
probe. -/
inductive ProjectConfigurationErrorKind
  | aggregateCreateNodesError (pluginName : String) (fileErrors : List (Option String))
  | mergeNodesError (pluginName : String) (file : String)
  | projectsWithNoNameError (roots : List String)
  | otherKind
deriving DecidableEq

/-- Embeds findPluginAndFilesWithError: extracts the plugin name and the
offending files from an error, filtering falsy entries, and answers none when
the plugin name is falsy or no file remains. -/
def findPluginAndFilesWithError (e : ProjectConfigurationErrorKind) : Option (String × List String) :=
  let pair : Option String × List (Option String) :=
    match e with
    | .aggregateCreateNodesError n fs => (some n, fs)
    | .mergeNodesError n f => (some n, [some f])
    | _ => (none, [])
  let files := (pair.2.filterMap id).filter (fun s => decide (s ≠ ""))
  match pair.1 with
  | some n => if n = "" ∨ files = [] then none else some (n, files)
  | none => none

/-- One step of the error accumulation loop of checkCompatibleWithPlugins. -/
def accumulatePluginError (m : List (String × List String)) (e : ProjectConfigurationErrorKind) : List (String × List String) :=
  match findPluginAndFilesWithError e with
  | none => m
  | some (p, fs) => addEntry m p fs

/-- Outcome of loadNxPlugins, an external collaborator of the probe. -/
inductive PluginLoadOutcome
  | ok
  | failure
deriving DecidableEq

/-- Outcome of retrieveProjectConfigurations, an external collaborator of the
probe: success, a thrown ProjectConfigurationsError carrying a list of error
kinds, or any other thrown error. -/
inductive RetrieveProjectConfigurationsOutcome
  | ok
  | projectConfigurationsError (errors : List ProjectConfigurationErrorKind)
  | otherError
deriving DecidableEq

/-- Embeds checkCompatibleWithPlugins: returns the mapping from plugin name to
the Set of offending files, and the empty mapping when plugin loading failed,
when retrieval succeeded, or when retrieval failed with anything other than a
ProjectConfigurationsError. -/
def checkCompatibleWithPlugins (load : PluginLoadOutcome) (retrieve : RetrieveProjectConfigurationsOutcome) : List (String × List String) :=
  match load with
  | .failure => []
  | .ok =>
    match retrieve with
    | .ok => []
    | .otherError => []
    | .projectConfigurationsError errs => errs.foldl accumulatePluginError []

/-- The contribution relation described by the specification: an aggregate
create-nodes error cites each file appearing as the first component of one of
its per-file sub-errors, and a merge-nodes error cites its single file; no
other kind cites anything. -/
def specCitesFile : ProjectConfigurationErrorKind → String → String → Prop
  | .aggregateCreateNodesError n fs, p, f => n = p ∧ some f ∈ fs
  | .mergeNodesError n g, p, f => n = p ∧ f = g
  | _, _, _ => False

/-- The error kinds the probe interprets. -/
def isStructuralCompatibilityError : ProjectConfigurationErrorKind → Bool
  | .aggregateCreateNodesError _ _ => true
  | .mergeNodesError _ _ => true
  | _ => false

/-- The five-error scenario of the mixed test of the spec file. -/
def mixedFiveErrors : List ProjectConfigurationErrorKind :=
  [ .projectsWithNoNameError ["root1"],
    .aggregateCreateNodesError "randomPlugin" [],
    .aggregateCreateNodesError "plugin1" [some "file1", some "file2"],
    .mergeNodesError "plugin2" "file2",
    .aggregateCreateNodesError "plugin2" [some "file3", some "file4"] ]

/-! ### Rewriting nx.json (updatePluginsInNxJson) -/

/-- A structured plugin descriptor; options stands for all further fields of an
ExpandedPluginConfiguration, which the update never touches. -/
structure ExpandedPluginConfiguration where
  plugin : String
  exclude : Option (List String)
  options : Option String
deriving DecidableEq

/-- A plugin descriptor in nx.json: either a bare name string or structured. -/
inductive PluginConfiguration
  | str (name : String)
  | expanded (cfg : ExpandedPluginConfiguration)
deriving DecidableEq

/-- The name a descriptor carries, as compared by findPluginWithName. -/
def pluginNameOf : PluginConfiguration → String
  | .str n => n
  | .expanded e => e.plugin

/-- Upgrades a bare-string descriptor to structured form, as findPluginWithName
does in place; a structured descriptor is kept as is. -/
def toExpanded : PluginConfiguration → ExpandedPluginConfiguration
  | .str n => { plugin := n, exclude := none, options := none }
  | .expanded e => e

/-- The effect of one iteration of the update loop on the matched descriptor:
the bare-string form is upgraded, and when the probe file set is nonempty the
exclude list becomes the Set of probe files followed by the previous exclude
entries not already present. -/
def applyExcludeTo (p : PluginConfiguration) (files : List String) : PluginConfiguration :=
  let e := toExpanded p
  if files = [] then .expanded e
  else .expanded { e with exclude := some (addFilesToSet (addFilesToSet [] files) (e.exclude.getD [])) }

/-- Embeds findPluginWithName combined with the per-entry mutation of
updatePluginsInNxJson: the first descriptor whose name matches is replaced by
the updated descriptor, every other descriptor is untouched. -/
def updateMatchingPlugin : List PluginConfiguration → String → List String → List PluginConfiguration
  | [], _, _ => []
  | p :: rest, name, files =>
    if pluginNameOf p = name then applyExcludeTo p files :: rest
    else p :: updateMatchingPlugin rest name files

/-- The first descriptor matching a name, as found by findPluginWithName. -/
def firstMatch : List PluginConfiguration → String → Option PluginConfiguration
  | [], _ => none
  | p :: rest, name => if pluginNameOf p = name then some p else firstMatch rest name

/-- The nx.json document; otherFields stands for every part of the document
other than the plugins list, which the update preserves verbatim. -/
structure NxJsonConfiguration where
  plugins : Option (List PluginConfiguration)
  otherFields : String
deriving DecidableEq

/-- The state of the nx.json file on disk as observed by updatePluginsInNxJson:
missing, present but failing to parse, or readable. -/
inductive NxJsonFileState
  | absent
  | unreadable
  | readable (doc : NxJsonConfiguration)
deriving DecidableEq

/-- Embeds updatePluginsInNxJson.  The result is none when no write happens and
some doc when the document doc is written back. -/
def updatePluginsInNxJson (file : NxJsonFileState) (pluginNameToExcludeFiles : List (String × List String)) : Option NxJsonConfiguration :=
  match file with
  | .absent => none
  | .unreadable => none
  | .readable nxJson =>
    if pluginNameToExcludeFiles = [] ∨ nxJson.plugins.getD [] = [] then none
    else
      some { nxJson with
             plugins := some (pluginNameToExcludeFiles.foldl
               (fun ps e => updateMatchingPlugin ps e.1 e.2)
               (nxJson.plugins.getD [])) }

/-! ### File data, file maps and the process-wide file map cache -/

/-- A workspace file: path, content fingerprint, and the lazily resolved
dependency list. -/
structure FileData where
  file : String
  hash : String
  deps : Option (List String)
deriving DecidableEq

/-- The current full file set, split into per-project lists and a non-project
bucket. -/
structure FileMap where
  nonProjectFiles : List FileData
  projectFileMap : List (String × List FileData)
deriving DecidableEq

/-- An opaque handle to the native workspace file references. -/
structure NxWorkspaceFilesExternals where
  ref : String
deriving DecidableEq

/-- The module-level mutable state of build-project-graph.ts: the stored file
map, workspace file list and native references, all null before the first
build. -/
structure FileMapState where
  storedFileMap : Option FileMap
  storedAllWorkspaceFiles : Option (List FileData)
  storedRustReferences : Option NxWorkspaceFilesExternals
deriving DecidableEq

/-- The state of the process before any build has run. -/
def initialFileMapState : FileMapState :=
  { storedFileMap := none, storedAllWorkspaceFiles := none, storedRustReferences := none }

/-- The value returned by getFileMap. -/
structure FileMapResult where
  fileMap : FileMap
  allWorkspaceFiles : Option (List FileData)
  rustReferences : Option NxWorkspaceFilesExternals
deriving DecidableEq

/-- Embeds getFileMap: the stored data when a build has stored a file map, and
a well-formed empty result otherwise. -/
def getFileMap (s : FileMapState) : FileMapResult :=
  match s.storedFileMap with
  | some fm =>
    { fileMap := fm,
      allWorkspaceFiles := s.storedAllWorkspaceFiles,
      rustReferences := s.storedRustReferences }
  | none =>
    { fileMap := { nonProjectFiles := [], projectFileMap := [] },
      allWorkspaceFiles := some [],
      rustReferences := none }

/-- Embeds the first three statements of buildProjectGraphUsingProjectFileMap,
which store the file map, workspace files and native references into the
module-level state. -/
def storeFileMap (s : FileMapState) (fm : FileMap) (files : List FileData) (refs : NxWorkspaceFilesExternals) : FileMapState :=
  { s with
    storedFileMap := some fm,
    storedAllWorkspaceFiles := some files,
    storedRustReferences := some refs }

/-! ### Cache decision engine -/

/-- Modelled from the spec: the FileMapCache (produced in nx-deps-cache, which
is not among the analyzed sources) stores the previous build invalidation
inputs - combined dependency manifest, workspace configuration, compiler root
configuration and project-name set - together with the previous per-file
fingerprints and resolved dependency lists keyed by file path. -/
structure FileMapCache where
  packageJsonDeps : List (String × String)
  nxJson : String
  rootTsConfig : String
  projectNames : List String
  fileData : List (String × FileData)
deriving DecidableEq

/-- Modelled from the spec: shouldRecomputeWholeGraph (nx-deps-cache, not among
the analyzed sources) answers true exactly when the combined dependency
manifest, the workspace configuration, the compiler root configuration, or the
project-name set differs from the cached snapshot. -/
def shouldRecomputeWholeGraph (cache : FileMapCache) (packageJsonDeps : List (String × String)) (projectNames : List String) (nxJson rootTsConfig : String) : Bool :=
  decide (cache.packageJsonDeps ≠ packageJsonDeps) ||
  decide (cache.nxJson ≠ nxJson) ||
  decide (cache.rootTsConfig ≠ rootTsConfig) ||
  decide (cache.projectNames ≠ projectNames)

/-- The cached entry for a file path, when the previous build recorded one. -/
def cacheLookup (cache : FileMapCache) (path : String) : Option FileData :=
  lookupAssoc cache.fileData path

/-- A file must be reprocessed when it has no cached entry or its fingerprint
changed. -/
def isStale (cache : FileMapCache) (f : FileData) : Bool :=
  match cacheLookup cache f.file with
  | some c => decide (c.hash ≠ f.hash)
  | none => true

/-- The subset of the previous cache still valid for the current build: a
lookup structure from file path to the cached entry, per bucket. -/
structure CachedFileData where
  nonProjectFiles : List (String × FileData)
  projectFileMap : List (String × List (String × FileData))
deriving DecidableEq

/-- Splits one file list into the files to reprocess and the cached hits. -/
def splitFiles (cache : FileMapCache) : List FileData → List FileData × List (String × FileData)
  | [] => ([], [])
  | f :: rest =>
    let r := splitFiles cache rest
    match cacheLookup cache f.file with
    | some c => if c.hash = f.hash then (r.1, (f.file, c) :: r.2) else (f :: r.1, r.2)
    | none => (f :: r.1, r.2)

/-- Modelled from the spec: extractCachedFileData (nx-deps-cache, not among the
analyzed sources) partitions the current FileMap into the files whose
fingerprint differs from the cached one or that have no cached entry
(filesToProcess) and a lookup structure of cached entries for the unchanged
files (cachedFileData). -/
def extractCachedFileData (fm : FileMap) (cache : FileMapCache) : FileMap × CachedFileData :=
  let np := splitFiles cache fm.nonProjectFiles
  let proj := fm.projectFileMap.map (fun e => (e.1, splitFiles cache e.2))
  ({ nonProjectFiles := np.1, projectFileMap := proj.map (fun e => (e.1, e.2.1)) },
   { nonProjectFiles := np.2, projectFileMap := proj.map (fun e => (e.1, e.2.2)) })

/-- Embeds lines 117-138 of build-project-graph.ts: cached data is reused
exactly when a cache exists and shouldRecomputeWholeGraph answers false;
otherwise every file is processed and the cached data is empty. -/
def computeFilesToProcess (fileMapCache : Option FileMapCache) (fileMap : FileMap) (packageJsonDeps : List (String × String)) (projectNames : List String) (nxJson rootTsConfig : String) : FileMap × CachedFileData :=
  match fileMapCache with
  | some c =>
    if shouldRecomputeWholeGraph c packageJsonDeps projectNames nxJson rootTsConfig then
      (fileMap, { nonProjectFiles := [], projectFileMap := [] })
    else extractCachedFileData fileMap c
  | none => (fileMap, { nonProjectFiles := [], projectFileMap := [] })

/-- All files of a file map, non-project bucket first. -/
def fileMapFiles (fm : FileMap) : List FileData :=
  fm.nonProjectFiles ++ (fm.projectFileMap.map (fun e => e.2)).flatten

/-- The paths of all files of a file map. -/
def fileMapPaths (fm : FileMap) : List String :=
  (fileMapFiles fm).map (fun f => f.file)

/-- The paths of all cached hits. -/
def cachedHitPaths (c : CachedFileData) : List String :=
  c.nonProjectFiles.map (fun e => e.1) ++
    ((c.projectFileMap.map (fun e => e.2)).flatten).map (fun e => e.1)

/-! ### Project graph, metadata and the plugin orchestrator -/

/-- The type tag of a dependency edge. -/
inductive DependencyType
  | staticDep
  | dynamicDep
  | implicitDep
deriving DecidableEq

/-- A dependency contribution of a provider: source, target, type tag and the
optional originating file. -/
structure RawProjectGraphDependency where
  source : String
  target : String
  depType : DependencyType
  sourceFile : Option String
deriving DecidableEq

/-- A metadata property value; the spec distinguishes scalar properties, which
a later provider replaces, from array-typed properties, which concatenate. -/
inductive MetadataValue
  | scalar (value : String)
  | array (values : List String)
deriving DecidableEq

/-- The metadata bag of a project node. -/
abbrev ProjectMetadata := List (String × MetadataValue)

/-- The provenance of a metadata property: originating file and provider. -/
abbrev SourceInformation := Option String × String

/-- Per-project provenance map from property to source information. -/
abbrev ProjectSourceMap := List (String × SourceInformation)

/-- Provenance maps for every project. -/
abbrev ConfigurationSourceMaps := List (String × ProjectSourceMap)

/-- The project graph: version, project nodes with their metadata bags,
external nodes and dependency edges. -/
structure ProjectGraph where
  version : Option String
  nodes : List (String × ProjectMetadata)
  externalNodes : List String
  dependencies : List RawProjectGraphDependency
deriving DecidableEq

/-- Whether a name is a known project node or external node of the graph. -/
def knownGraphNode (g : ProjectGraph) (name : String) : Bool :=
  decide (name ∈ g.nodes.map Prod.fst) || decide (name ∈ g.externalNodes)

/-- Modelled from the spec: ProjectGraphBuilder.addDependency
(project-graph-builder.ts is not among the analyzed sources) fails loudly when
either endpoint is unknown, and otherwise appends the edge idempotently. -/
def addDependency (g : ProjectGraph) (d : RawProjectGraphDependency) : Except String ProjectGraph :=
  if knownGraphNode g d.source && knownGraphNode g d.target then
    if d ∈ g.dependencies then .ok g
    else .ok { g with dependencies := g.dependencies ++ [d] }
  else .error "unknown dependency endpoint"

/-- Feeds the contributions of one provider into the builder; the builder is
mutated in place, so on a thrown invariant violation the edges already added
are kept and the cause is reported. -/
def addPluginDependencies : ProjectGraph → List RawProjectGraphDependency → ProjectGraph × Option String
  | g, [] => (g, none)
  | g, d :: rest =>
    match addDependency g d with
    | .ok g2 => addPluginDependencies g2 rest
    | .error msg => (g, some msg)

/-- The error kinds collected while updating the graph with plugins, plus the
workspace validity kind collected by the top-level build. -/
inductive ProjectGraphErrorKind
  | processDependenciesError (pluginName : String) (cause : String)
  | createMetadataError (cause : String) (pluginName : String)
  | workspaceValidityError (message : String)
deriving DecidableEq

/-- The outcome of one provider invocation: a returned value or a thrown
cause. -/
inductive PluginOutcome (α : Type)
  | ok (value : α)
  | threw (cause : String)
deriving DecidableEq

/-- A loaded provider: a name and the optional capabilities.  The behavior of
a capability is modelled by the outcome of its (single) invocation during the
build: an ordered contribution list, or a thrown cause. -/
structure LoadedNxPlugin where
  name : String
  createDependencies : Option (PluginOutcome (List RawProjectGraphDependency))
  createMetadata : Option (PluginOutcome (List (String × ProjectMetadata)))
deriving DecidableEq

/-- The integration of one settled dependency provider: a provider without the
capability is skipped, a throwing provider is recorded as a
process-dependencies failure, and the contributions of a successful provider
are fed into the shared builder (which can itself throw on an invalid edge,
recorded the same way). -/
def dependencyPhaseStep (st : ProjectGraph × List ProjectGraphErrorKind) (p : LoadedNxPlugin) : ProjectGraph × List ProjectGraphErrorKind :=
  match p.createDependencies with
  | none => st
  | some (.threw cause) => (st.1, st.2 ++ [.processDependenciesError p.name cause])
  | some (.ok deps) =>
    match addPluginDependencies st.1 deps with
    | (g, none) => (g, st.2)
    | (g, some cause) => (g, st.2 ++ [.processDependenciesError p.name cause])

/-- The dependency phase of updateProjectGraphWithPlugins.  settledOrder is
the order in which the concurrently launched provider invocations completed;
each result is integrated as it settles. -/
def dependencyPhase (g : ProjectGraph) (settledOrder : List LoadedNxPlugin) : ProjectGraph × List ProjectGraphErrorKind :=
  settledOrder.foldl dependencyPhaseStep (g, [])

/-- One property of a provider metadata object merged into the existing
metadata with its provenance entry. -/
def mergeMetadataStep (attribution : SourceInformation) (acc : ProjectMetadata × ProjectSourceMap) (kv : String × MetadataValue) : ProjectMetadata × ProjectSourceMap :=
  match kv.2 with
  | .array xs =>
    match lookupAssoc acc.1 kv.1 with
    | some (.array ys) => (setAssoc acc.1 kv.1 (.array (ys ++ xs)), setAssoc acc.2 kv.1 attribution)
    | _ => (setAssoc acc.1 kv.1 (.array xs), setAssoc acc.2 kv.1 attribution)
  | .scalar s => (setAssoc acc.1 kv.1 (.scalar s), setAssoc acc.2 kv.1 attribution)

/-- Modelled from the spec: mergeMetadata (project-configuration-utils.ts is
not among the analyzed sources) merges a provider metadata object into the
existing metadata of a project; a later-applied provider wins for scalar
properties, array-typed properties are concatenated, and the source map entry
of each written property is updated to attribute it to the winning provider
and originating file. -/
def mergeMetadata (projSourceMap : ProjectSourceMap) (attribution : SourceInformation) (newMetadata oldMetadata : ProjectMetadata) : ProjectMetadata × ProjectSourceMap :=
  newMetadata.foldl (mergeMetadataStep attribution) (oldMetadata, projSourceMap)

/-- The application of one project entry of a buffered provider result: a
project missing from the graph is skipped; otherwise the node metadata and the
project source map are replaced by the merge result, attributed to a null file
and the provider name. -/
def applyMetadataToProject (acc : ProjectGraph × ConfigurationSourceMaps) (pluginName : String) (entry : String × ProjectMetadata) : ProjectGraph × ConfigurationSourceMaps :=
  match lookupAssoc acc.1.nodes entry.1 with
  | none => acc
  | some oldMd =>
    let projSm := (lookupAssoc acc.2 entry.1).getD []
    let r := mergeMetadata projSm (none, pluginName) entry.2 oldMd
    ({ acc.1 with nodes := setAssoc acc.1.nodes entry.1 r.1 }, setAssoc acc.2 entry.1 r.2)

/-- The buffering loop of applyProjectMetadata: each settling provider with the
metadata capability pushes its successful result, or a create-metadata error,
in settlement order. -/
def metadataPhaseStep (acc : List (List (String × ProjectMetadata) × String) × List ProjectGraphErrorKind) (p : LoadedNxPlugin) : List (List (String × ProjectMetadata) × String) × List ProjectGraphErrorKind :=
  match p.createMetadata with
  | none => acc
  | some (.ok md) => (acc.1 ++ [(md, p.name)], acc.2)
  | some (.threw cause) => (acc.1, acc.2 ++ [.createMetadataError cause p.name])

/-- The buffered results and errors after every provider has settled, in the
order the invocations completed. -/
def collectMetadataResults (settledOrder : List LoadedNxPlugin) : List (List (String × ProjectMetadata) × String) × List ProjectGraphErrorKind :=
  settledOrder.foldl metadataPhaseStep ([], [])

/-- The application of the buffered results onto graph and source maps. -/
def applyMetadataResults (g : ProjectGraph) (sm : ConfigurationSourceMaps) (results : List (List (String × ProjectMetadata) × String)) : ProjectGraph × ConfigurationSourceMaps :=
  results.foldl (fun acc r => r.1.foldl (fun acc2 e => applyMetadataToProject acc2 r.2 e) acc) (g, sm)

/-- Embeds applyProjectMetadata: buffer every settled result, then apply the
buffered results to the graph.  settledOrder is the order in which the
concurrently launched provider invocations completed. -/
def applyProjectMetadata (g : ProjectGraph) (sm : ConfigurationSourceMaps) (settledOrder : List LoadedNxPlugin) : ProjectGraph × ConfigurationSourceMaps × List ProjectGraphErrorKind :=
  let c := collectMetadataResults settledOrder
  let r := applyMetadataResults g sm c.1
  (r.1, r.2, c.2)

/-- One provider application in the strict provider-list-order reading. -/
def applyMetadataSpecStep (acc : ProjectGraph × ConfigurationSourceMaps) (p : LoadedNxPlugin) : ProjectGraph × ConfigurationSourceMaps :=
  match p.createMetadata with
  | some (.ok md) => md.foldl (fun acc2 e => applyMetadataToProject acc2 p.name e) acc
  | _ => acc

/-- Follows the spec wording, for comparison: buffered successful metadata
results applied in strict provider-list order. -/
def applyMetadataInSpecOrder (g : ProjectGraph) (sm : ConfigurationSourceMaps) (plugins : List LoadedNxPlugin) : ProjectGraph × ConfigurationSourceMaps :=
  plugins.foldl applyMetadataSpecStep (g, sm)

/-- Embeds updateProjectGraphWithPlugins: run the dependency phase, then the
metadata phase, and throw a single aggregate error carrying every collected
error and the best-effort graph when any provider failed. -/
def updateProjectGraphWithPlugins (g : ProjectGraph) (sm : ConfigurationSourceMaps) (depSettledOrder mdSettledOrder : List LoadedNxPlugin) : Except (List ProjectGraphErrorKind × ProjectGraph × ConfigurationSourceMaps) (ProjectGraph × ConfigurationSourceMaps) :=
  let d := dependencyPhase g depSettledOrder
  let m := applyProjectMetadata d.1 sm mdSettledOrder
  let errors := d.2 ++ m.2.2
  if errors = [] then .ok (m.1, m.2.1) else .error (errors, m.1, m.2.1)

/-! ### Top-level error flow of buildProjectGraphUsingProjectFileMap -/

/-- The outcome of assertWorkspaceValidity: passing, throwing a workspace
validity error, or throwing anything else (which the build swallows). -/
inductive ValidityCheckOutcome
  | passed
  | failedWithValidityError (message : String)
  | failedWithOtherError
deriving DecidableEq

/-- The outcome of the graph building phases inside the try block: a built
graph, a thrown aggregate error carrying errors and the best-effort graph, or
any other thrown error. -/
inductive GraphPhaseOutcome
  | built (g : ProjectGraph)
  | aggregateError (errors : List ProjectGraphErrorKind) (bestEffortGraph : ProjectGraph)
  | otherError
deriving DecidableEq

/-- What the top-level build hands back to its caller. -/
inductive BuildOutcome
  | ok (g : ProjectGraph)
  | aggregateProjectGraphError (errors : List ProjectGraphErrorKind) (bestEffortGraph : ProjectGraph)
  | uncaughtError
deriving DecidableEq

/-- Embeds the error flow of buildProjectGraphUsingProjectFileMap (lines
101-182): a workspace validity error is collected rather than thrown, a thrown
aggregate error is rethrown with the validity errors prepended, and a validity
error collected alongside a successful build is thrown as an aggregate error
carrying the fully built graph.  The parameters stand for the outcomes of the
two effectful subcalls. -/
def buildProjectGraphUsingProjectFileMap (validity : ValidityCheckOutcome) (phase : GraphPhaseOutcome) : BuildOutcome :=
  let errors : List ProjectGraphErrorKind :=
    match validity with
    | .failedWithValidityError msg => [.workspaceValidityError msg]
    | _ => []
  match phase with
  | .built g => if errors = [] then .ok g else .aggregateProjectGraphError errors g
  | .aggregateError errs g => .aggregateProjectGraphError (errors ++ errs) g
  | .otherError => .uncaughtError

/-! ### Concrete instances used by counterexamples and witnesses -/

/-- A graph with one project node and no metadata, used for the metadata
ordering scenario. -/
def mdProbeGraph : ProjectGraph :=
  { version := none, nodes := [("projX", [])], externalNodes := [], dependencies := [] }

/-- A metadata provider setting the scalar property owner to one. -/
def mdPluginOne : LoadedNxPlugin :=
  { name := "plugin-one",
    createDependencies := none,
    createMetadata := some (.ok [("projX", [("owner", .scalar "one")])]) }

/-- A metadata provider setting the scalar property owner to two. -/
def mdPluginTwo : LoadedNxPlugin :=
  { name := "plugin-two",
    createDependencies := none,
    createMetadata := some (.ok [("projX", [("owner", .scalar "two")])]) }

/-- A graph with two project nodes, used for the dependency failure witness. -/
def depProbeGraph : ProjectGraph :=
  { version := none, nodes := [("appA", []), ("libB", [])], externalNodes := [], dependencies := [] }

/-- The edge contributed by the successful dependency provider below. -/
def depEdgeOk : RawProjectGraphDependency :=
  { source := "appA", target := "libB", depType := .staticDep, sourceFile := some "appA/main.ts" }

/-- A dependency provider contributing one valid edge. -/
def depPluginOk : LoadedNxPlugin :=
  { name := "plugin-ok",
    createDependencies := some (.ok [depEdgeOk]),
    createMetadata := none }

/-- A dependency provider that throws. -/
def depPluginBad : LoadedNxPlugin :=
  { name := "plugin-bad",
    createDependencies := some (.threw "boom"),
    createMetadata := none }

/-! ### Lemmas about the Set and association list helpers -/

theorem mem_insertFile (l : List String) (g f : String) :
    f ∈ insertFile l g ↔ f ∈ l ∨ f = g := by
  unfold insertFile
  by_cases h : g ∈ l
  · rw [if_pos h]
    constructor
    · exact fun hf => Or.inl hf
    · rintro (hf | rfl)
      · exact hf
      · exact h
  · rw [if_neg h]
    simp

theorem mem_addFilesToSet (fs : List String) (l : List String) (f : String) :
    f ∈ addFilesToSet l fs ↔ f ∈ l ∨ f ∈ fs := by
  induction fs generalizing l with
  | nil => simp [addFilesToSet]
  | cons g rest ih =>
    show f ∈ addFilesToSet (insertFile l g) rest ↔ _
    rw [ih, mem_insertFile]
    simp [or_assoc, List.mem_cons]

theorem nodup_insertFile (l : List String) (g : String) (h : l.Nodup) :
    (insertFile l g).Nodup := by
  unfold insertFile
  by_cases hg : g ∈ l
  · rwa [if_pos hg]
  · rw [if_neg hg]
    simpa [List.nodup_append] using ⟨h, hg⟩

theorem nodup_addFilesToSet (fs : List String) (l : List String) (h : l.Nodup) :
    (addFilesToSet l fs).Nodup := by
  induction fs generalizing l with
  | nil => exact h
  | cons g rest ih => exact ih (insertFile l g) (nodup_insertFile l g h)

theorem lookupFiles_addEntry_self (m : List (String × List String)) (p : String) (fs : List String) :
    lookupFiles (addEntry m p fs) p = addFilesToSet (lookupFiles m p) fs := by
  induction m with
  | nil => simp [addEntry, lookupFiles]
  | cons e rest ih =>
    obtain ⟨q, l⟩ := e
    by_cases h : q = p
    · subst h
      simp [addEntry, lookupFiles]
    · simp [addEntry, lookupFiles, h, ih]

theorem lookupFiles_addEntry_ne (m : List (String × List String)) (p q : String) (fs : List String) (h : q ≠ p) :
    lookupFiles (addEntry m p fs) q = lookupFiles m q := by
  induction m with
  | nil => simp [addEntry, lookupFiles, Ne.symm h]
  | cons e rest ih =>
    obtain ⟨r, l⟩ := e
    by_cases hr : r = p
    · subst hr
      simp [addEntry, lookupFiles, Ne.symm h]
    · by_cases hq : r = q
      · subst hq
        simp [addEntry, lookupFiles, hr]
      · simp [addEntry, lookupFiles, hr, hq, ih]

/-! ### Lemmas about the compatibility probe -/

theorem mem_lookupFiles_foldl (errs : List ProjectConfigurationErrorKind) :
    ∀ (m : List (String × List String)) (p f : String),
      f ∈ lookupFiles (errs.foldl accumulatePluginError m) p ↔
        f ∈ lookupFiles m p ∨
          ∃ e ∈ errs, ∃ fs, findPluginAndFilesWithError e = some (p, fs) ∧ f ∈ fs := by
  induction errs with
  | nil => simp
  | cons e rest ih =>
    intro m p f
    show f ∈ lookupFiles (rest.foldl accumulatePluginError (accumulatePluginError m e)) p ↔ _
    rw [ih]
    unfold accumulatePluginError
    cases h : findPluginAndFilesWithError e with
    | none =>
      simp only [List.mem_cons, h]
      constructor
      · rintro (hm | hrest)
        · exact Or.inl hm
        · obtain ⟨e2, he2, hfs⟩ := hrest
          exact Or.inr ⟨e2, Or.inr he2, hfs⟩
      · rintro (hm | ⟨e2, he2 | he2, hfs⟩)
        · exact Or.inl hm
        · subst he2
          obtain ⟨fs, hfs1, _⟩ := hfs
          rw [h] at hfs1
          cases hfs1
        · exact Or.inr ⟨e2, he2, hfs⟩
    | some pr =>
      obtain ⟨q, fs⟩ := pr
      by_cases hq : q = p
      · subst hq
        rw [lookupFiles_addEntry_self, mem_addFilesToSet]
        simp only [List.mem_cons]
        constructor
        · rintro ((hm | hfs) | hrest)
          · exact Or.inl hm
          · exact Or.inr ⟨e, Or.inl rfl, fs, h, hfs⟩
          · obtain ⟨e2, he2, hfs⟩ := hrest
            exact Or.inr ⟨e2, Or.inr he2, hfs⟩
        · rintro (hm | ⟨e2, he2 | he2, hfs⟩)
          · exact Or.inl (Or.inl hm)
          · subst he2
            obtain ⟨fs2, hfs1, hfs2⟩ := hfs
            rw [h] at hfs1
            cases hfs1
            exact Or.inl (Or.inr hfs2)
          · exact Or.inr ⟨e2, he2, hfs⟩
      · rw [lookupFiles_addEntry_ne _ _ _ _ (Ne.symm hq)]
        simp only [List.mem_cons]
        constructor
        · rintro (hm | hrest)
          · exact Or.inl hm
          · obtain ⟨e2, he2, hfs⟩ := hrest
            exact Or.inr ⟨e2, Or.inr he2, hfs⟩
        · rintro (hm | ⟨e2, he2 | he2, hfs⟩)
          · exact Or.inl hm
          · subst he2
            obtain ⟨fs2, hfs1, _⟩ := hfs
            rw [h] at hfs1
            cases hfs1
            exact absurd rfl hq
          · exact Or.inr ⟨e2, he2, hfs⟩

theorem findPluginAndFiles_spec (e : ProjectConfigurationErrorKind) (p f : String)
    (hp : p ≠ "") (hf : f ≠ "") :
    (∃ fs, findPluginAndFilesWithError e = some (p, fs) ∧ f ∈ fs) ↔ specCitesFile e p f := by
  cases e with
  | aggregateCreateNodesError n fs =>
    show (∃ fs2, (if n = "" ∨ List.filter (fun s => decide (s ≠ "")) (fs.filterMap id) = []
        then none else some (n, List.filter (fun s => decide (s ≠ "")) (fs.filterMap id))) = some (p, fs2) ∧ f ∈ fs2) ↔
      (n = p ∧ some f ∈ fs)
    have hmem : f ∈ List.filter (fun s => decide (s ≠ "")) (fs.filterMap id) ↔ some f ∈ fs := by
      rw [List.mem_filter, List.mem_filterMap]
      simp [hf]
    by_cases hcond : n = "" ∨ List.filter (fun s => decide (s ≠ "")) (fs.filterMap id) = []
    · rw [if_pos hcond]
      constructor
      · rintro ⟨_, h, _⟩
        cases h
      · rintro ⟨rfl, hmf⟩
        rcases hcond with hcond | hcond
        · exact absurd hcond hp
        · rw [hcond] at hmem
          exact absurd (hmem.mpr hmf) (List.not_mem_nil f)
    · rw [if_neg hcond]
      constructor
      · rintro ⟨fs2, heq, hmemf⟩
        injection heq with heq
        injection heq with h1 h2
        subst h1
        subst h2
        exact ⟨rfl, hmem.mp hmemf⟩
      · rintro ⟨rfl, hmf⟩
        exact ⟨_, rfl, hmem.mpr hmf⟩
  | mergeNodesError n g =>
    show (∃ fs2, (if n = "" ∨ List.filter (fun s => decide (s ≠ "")) ([some g].filterMap id) = []
        then none else some (n, List.filter (fun s => decide (s ≠ "")) ([some g].filterMap id))) = some (p, fs2) ∧ f ∈ fs2) ↔
      (n = p ∧ f = g)
    by_cases hg : g = ""
    · subst hg
      rw [if_pos (Or.inr (by decide))]
      constructor
      · rintro ⟨_, h, _⟩
        cases h
      · rintro ⟨_, h2⟩
        exact absurd h2 hf
    · have hfilter : List.filter (fun s => decide (s ≠ "")) ([some g].filterMap id) = [g] := by
        simp [List.filterMap, List.filter, hg]
      rw [hfilter]
      by_cases hn : n = ""
      · rw [if_pos (Or.inl hn)]
        constructor
        · rintro ⟨_, h, _⟩
          cases h
        · rintro ⟨rfl, _⟩
          exact absurd hn hp
      · rw [if_neg (by simp [hn])]
        constructor
        · rintro ⟨fs2, heq, hmemf⟩
          injection heq with heq
          injection heq with h1 h2
          subst h1
          subst h2
          simp at hmemf
          exact ⟨rfl, hmemf⟩
        · rintro ⟨rfl, rfl⟩
          exact ⟨[f], rfl, by simp⟩
  | projectsWithNoNameError roots =>
    show (∃ fs2, none = some (p, fs2) ∧ f ∈ fs2) ↔ False
    simp
  | otherKind =>
    show (∃ fs2, none = some (p, fs2) ∧ f ∈ fs2) ↔ False
    simp

/-- C1: for every ProjectConfigurationsError raised during scoped
project-configuration retrieval, checkCompatibleWithPlugins maps each provider
name to the union, over all errors implicating that provider, of the files
cited by the error (the per-file sub-errors of an AggregateCreateNodesError,
the single file of a MergeNodesError); the mixed five-error scenario yields
exactly plugin1 mapped to file1, file2 and plugin2 mapped to file2, file3,
file4. -/
theorem checkCompatibleWithPlugins_union_per_provider
    (errs : List ProjectConfigurationErrorKind) (p f : String) (hp : p ≠ "") (hf : f ≠ "") :
    (f ∈ lookupFiles (checkCompatibleWithPlugins .ok (.projectConfigurationsError errs)) p ↔
      ∃ e ∈ errs, specCitesFile e p f) ∧
    checkCompatibleWithPlugins .ok (.projectConfigurationsError mixedFiveErrors) =
      [("plugin1", ["file1", "file2"]), ("plugin2", ["file2", "file3", "file4"])] := by
  constructor
  · show f ∈ lookupFiles (errs.foldl accumulatePluginError []) p ↔ _
    rw [mem_lookupFiles_foldl]
    show f ∈ [] ∨ _ ↔ _
    simp only [List.not_mem_nil, false_or]
    constructor
    · rintro ⟨e, he, hfs⟩
      exact ⟨e, he, (findPluginAndFiles_spec e p f hp hf).mp hfs⟩
    · rintro ⟨e, he, hc⟩
      exact ⟨e, he, (findPluginAndFiles_spec e p f hp hf).mpr hc⟩
  · decide

/-- Witness for C1 at the five-error scenario, provider plugin1 and file1. -/
theorem checkCompatibleWithPlugins_union_per_provider_witness :
    (("plugin1" : String) ≠ "" ∧ ("file1" : String) ≠ "") ∧
    (("file1" ∈ lookupFiles (checkCompatibleWithPlugins .ok (.projectConfigurationsError mixedFiveErrors)) "plugin1" ↔
      ∃ e ∈ mixedFiveErrors, specCitesFile e "plugin1" "file1") ∧
    checkCompatibleWithPlugins .ok (.projectConfigurationsError mixedFiveErrors) =
      [("plugin1", ["file1", "file2"]), ("plugin2", ["file2", "file3", "file4"])]) :=
  ⟨⟨by decide, by decide⟩,
    checkCompatibleWithPlugins_union_per_provider mixedFiveErrors "plugin1" "file1"
      (by decide) (by decide)⟩

theorem accumulatePluginError_nonstructural (m : List (String × List String))
    (e : ProjectConfigurationErrorKind) (h : isStructuralCompatibilityError e = false) :
    accumulatePluginError m e = m := by
  cases e with
  | aggregateCreateNodesError n fs => simp [isStructuralCompatibilityError] at h
  | mergeNodesError n g => simp [isStructuralCompatibilityError] at h
  | projectsWithNoNameError roots => rfl
  | otherKind => rfl

theorem foldl_accumulate_filter (errs : List ProjectConfigurationErrorKind) :
    ∀ m, errs.foldl accumulatePluginError m =
      (errs.filter isStructuralCompatibilityError).foldl accumulatePluginError m := by
  induction errs with
  | nil => intro m; rfl
  | cons e rest ih =>
    intro m
    by_cases h : isStructuralCompatibilityError e = true
    · rw [List.filter_cons_of_pos h]
      exact ih (accumulatePluginError m e)
    · rw [List.filter_cons_of_neg h]
      show rest.foldl accumulatePluginError (accumulatePluginError m e) = _
      rw [accumulatePluginError_nonstructural m e (by simpa using h)]
      exact ih m

/-- C8: checkCompatibleWithPlugins returns the empty mapping whenever plugin
loading fails, whenever configuration retrieval succeeds, and whenever it
fails with anything other than a ProjectConfigurationsError; inside a
ProjectConfigurationsError every error kind other than
AggregateCreateNodesError and MergeNodesError is ignored, so a
ProjectsWithNoNameError alone yields the empty mapping; the probe is a total
function and never propagates a failure. -/
theorem checkCompatibleWithPlugins_swallows_failures :
    (∀ r, checkCompatibleWithPlugins .failure r = []) ∧
    checkCompatibleWithPlugins .ok .ok = [] ∧
    checkCompatibleWithPlugins .ok .otherError = [] ∧
    (∀ errs, checkCompatibleWithPlugins .ok (.projectConfigurationsError errs) =
      checkCompatibleWithPlugins .ok
        (.projectConfigurationsError (errs.filter isStructuralCompatibilityError))) ∧
    (∀ roots, checkCompatibleWithPlugins .ok
      (.projectConfigurationsError [.projectsWithNoNameError roots]) = []) := by
  refine ⟨fun r => rfl, rfl, rfl, fun errs => ?_, fun roots => rfl⟩
  exact foldl_accumulate_filter errs []

/-! ### The process-wide file map state -/

/-- C10: before any build has stored a file map, getFileMap returns a
well-formed empty result (empty non-project files, empty project file map,
empty workspace file list and null native references) rather than failing;
after a build has stored its data, getFileMap returns exactly that data. -/
theorem getFileMap_before_and_after_build :
    getFileMap initialFileMapState =
      { fileMap := { nonProjectFiles := [], projectFileMap := [] },
        allWorkspaceFiles := some [],
        rustReferences := none } ∧
    ∀ s fm files refs, getFileMap (storeFileMap s fm files refs) =
      { fileMap := fm, allWorkspaceFiles := some files, rustReferences := some refs } :=
  ⟨rfl, fun _ _ _ _ => rfl⟩

/-! ### Top-level error merging -/

/-- C7: a workspace validity failure is collected rather than immediately
thrown; the top-level build throws a single aggregate error whose error list
holds the validity error together with the phase errors and whose attached
graph is whatever graph was computed - in particular the fully built graph
when the phases succeed - and no error is reported when the check passes and
the phases succeed. -/
theorem buildProjectGraph_merges_validity_errors :
    (∀ msg g, buildProjectGraphUsingProjectFileMap (.failedWithValidityError msg) (.built g) =
      .aggregateProjectGraphError [.workspaceValidityError msg] g) ∧
    (∀ msg errs g,
      buildProjectGraphUsingProjectFileMap (.failedWithValidityError msg) (.aggregateError errs g) =
        .aggregateProjectGraphError (.workspaceValidityError msg :: errs) g) ∧
    (∀ g, buildProjectGraphUsingProjectFileMap .passed (.built g) = .ok g) := by
  refine ⟨fun msg g => ?_, fun msg errs g => rfl, fun g => rfl⟩
  show (if ([ProjectGraphErrorKind.workspaceValidityError msg] : List ProjectGraphErrorKind) = []
    then BuildOutcome.ok g
    else .aggregateProjectGraphError [.workspaceValidityError msg] g) = _
  rw [if_neg (by simp)]

/-! ### Cache decision engine -/

/-- C5: shouldRecomputeWholeGraph answers true exactly when the combined
dependency manifest, the workspace configuration, the compiler root
configuration, or the project-name set differs from the cached snapshot; and
when it answers false and a cache exists, the build extracts cached file data
instead of reprocessing the full file map. -/
theorem shouldRecomputeWholeGraph_iff_reuse (c : FileMapCache)
    (deps : List (String × String)) (names : List String) (nxJson ts : String) (fm : FileMap) :
    (shouldRecomputeWholeGraph c deps names nxJson ts = true ↔
      (c.packageJsonDeps ≠ deps ∨ c.nxJson ≠ nxJson ∨ c.rootTsConfig ≠ ts ∨
        c.projectNames ≠ names)) ∧
    (shouldRecomputeWholeGraph c deps names nxJson ts = false →
      computeFilesToProcess (some c) fm deps names nxJson ts = extractCachedFileData fm c) := by
  constructor
  · simp [shouldRecomputeWholeGraph]
    tauto
  · intro h
    simp [computeFilesToProcess, h]

/-- Witness for C5 at a cache whose snapshot matches all current inputs. -/
theorem shouldRecomputeWholeGraph_iff_reuse_witness :
    shouldRecomputeWholeGraph ⟨[("pkg", "1.0.0")], "nx", "ts", ["p1"], []⟩
        [("pkg", "1.0.0")] ["p1"] "nx" "ts" = false ∧
    computeFilesToProcess (some ⟨[("pkg", "1.0.0")], "nx", "ts", ["p1"], []⟩)
        ⟨[], []⟩ [("pkg", "1.0.0")] ["p1"] "nx" "ts" =
      extractCachedFileData ⟨[], []⟩ ⟨[("pkg", "1.0.0")], "nx", "ts", ["p1"], []⟩ :=
  ⟨by decide,
    (shouldRecomputeWholeGraph_iff_reuse ⟨[("pkg", "1.0.0")], "nx", "ts", ["p1"], []⟩
      [("pkg", "1.0.0")] ["p1"] "nx" "ts" ⟨[], []⟩).2 (by decide)⟩

/-! ### Cache partition (C6) -/

theorem splitFiles_eq (cache : FileMapCache) (files : List FileData) :
    splitFiles cache files =
      (files.filter (fun f => isStale cache f),
       (files.filter (fun f => !isStale cache f)).map
         (fun f => (f.file, (cacheLookup cache f.file).getD f))) := by
  induction files with
  | nil => rfl
  | cons f rest ih =>
    simp only [splitFiles]
    rw [ih]
    cases h : cacheLookup cache f.file with
    | none => simp [isStale, h, List.filter_cons]
    | some c =>
      by_cases hh : c.hash = f.hash
      · simp [isStale, h, hh, List.filter_cons]
      · simp [isStale, h, hh, List.filter_cons]

theorem extract_toProcess_files (fm : FileMap) (cache : FileMapCache) :
    fileMapFiles (extractCachedFileData fm cache).1 =
      (fileMapFiles fm).filter (fun f => isStale cache f) := by
  simp [extractCachedFileData, fileMapFiles, splitFiles_eq, List.map_map, Function.comp,
    List.filter_append, List.filter_flatten]
  rfl

theorem extract_cachedHit_paths (fm : FileMap) (cache : FileMapCache) :
    cachedHitPaths (extractCachedFileData fm cache).2 =
      ((fileMapFiles fm).filter (fun f => !isStale cache f)).map (fun f => f.file) := by
  simp [extractCachedFileData, cachedHitPaths, fileMapFiles, splitFiles_eq, List.map_map,
    Function.comp, List.filter_append, List.filter_flatten, List.map_flatten, List.map_append]
  simp [Function.comp_def, List.map_map]

/-- C6: the partition produced by extractCachedFileData is disjoint - no file
path is both scheduled for reprocessing and present as a cached hit - and a
file whose cached fingerprint is unchanged never appears among the files to
process, provided the current file map holds each path once. -/
theorem extractCachedFileData_partition (fm : FileMap) (cache : FileMapCache)
    (hnd : (fileMapPaths fm).Nodup) :
    (∀ path, ¬(path ∈ fileMapPaths (extractCachedFileData fm cache).1 ∧
        path ∈ cachedHitPaths (extractCachedFileData fm cache).2)) ∧
    (∀ f ∈ fileMapFiles fm, ∀ c, cacheLookup cache f.file = some c → c.hash = f.hash →
        f.file ∉ fileMapPaths (extractCachedFileData fm cache).1) := by
  have h1 : ∀ path, path ∈ fileMapPaths (extractCachedFileData fm cache).1 ↔
      ∃ f ∈ fileMapFiles fm, isStale cache f = true ∧ f.file = path := by
    intro path
    show path ∈ (fileMapFiles (extractCachedFileData fm cache).1).map (fun f => f.file) ↔ _
    rw [extract_toProcess_files]
    simp [List.mem_map, List.mem_filter]
    tauto
  have h2 : ∀ path, path ∈ cachedHitPaths (extractCachedFileData fm cache).2 ↔
      ∃ f ∈ fileMapFiles fm, isStale cache f = false ∧ f.file = path := by
    intro path
    rw [extract_cachedHit_paths]
    simp [List.mem_map, List.mem_filter]
    tauto
  have hinj : ∀ f1 ∈ fileMapFiles fm, ∀ f2 ∈ fileMapFiles fm, f1.file = f2.file → f1 = f2 := by
    intro f1 h1m f2 h2m hf
    exact List.inj_on_of_nodup_map hnd h1m h2m hf
  constructor
  · rintro path ⟨hp, hc⟩
    obtain ⟨f1, hf1m, hs1, hp1⟩ := (h1 path).mp hp
    obtain ⟨f2, hf2m, hs2, hp2⟩ := (h2 path).mp hc
    have : f1 = f2 := hinj f1 hf1m f2 hf2m (by rw [hp1, hp2])
    rw [this] at hs1
    rw [hs1] at hs2
    cases hs2
  · intro f hfm c hc hh hmem
    obtain ⟨f2, hf2m, hs2, hp2⟩ := (h1 f.file).mp hmem
    have : f2 = f := hinj f2 hf2m f hfm hp2
    rw [this] at hs2
    have : isStale cache f = false := by simp [isStale, hc, hh]
    rw [this] at hs2
    cases hs2

/-- Witness for C6 at a file map with one unchanged cached file and one new
file. -/
theorem extractCachedFileData_partition_witness :
    (fileMapPaths ⟨[⟨"a.ts", "h1", none⟩], [("p1", [⟨"b.ts", "h2", none⟩])]⟩).Nodup ∧
    ((∀ path, ¬(path ∈ fileMapPaths (extractCachedFileData
          ⟨[⟨"a.ts", "h1", none⟩], [("p1", [⟨"b.ts", "h2", none⟩])]⟩
          ⟨[], "", "", [], [("a.ts", ⟨"a.ts", "h1", some ["dep1"]⟩)]⟩).1 ∧
        path ∈ cachedHitPaths (extractCachedFileData
          ⟨[⟨"a.ts", "h1", none⟩], [("p1", [⟨"b.ts", "h2", none⟩])]⟩
          ⟨[], "", "", [], [("a.ts", ⟨"a.ts", "h1", some ["dep1"]⟩)]⟩).2)) ∧
    (∀ f ∈ fileMapFiles ⟨[⟨"a.ts", "h1", none⟩], [("p1", [⟨"b.ts", "h2", none⟩])]⟩,
      ∀ c, cacheLookup ⟨[], "", "", [], [("a.ts", ⟨"a.ts", "h1", some ["dep1"]⟩)]⟩ f.file = some c →
        c.hash = f.hash →
        f.file ∉ fileMapPaths (extractCachedFileData
          ⟨[⟨"a.ts", "h1", none⟩], [("p1", [⟨"b.ts", "h2", none⟩])]⟩
          ⟨[], "", "", [], [("a.ts", ⟨"a.ts", "h1", some ["dep1"]⟩)]⟩).1)) :=
  ⟨by decide,
    extractCachedFileData_partition
      ⟨[⟨"a.ts", "h1", none⟩], [("p1", [⟨"b.ts", "h2", none⟩])]⟩
      ⟨[], "", "", [], [("a.ts", ⟨"a.ts", "h1", some ["dep1"]⟩)]⟩ (by decide)⟩

/-! ### The nx.json update (C9) -/

theorem toExpanded_plugin (p : PluginConfiguration) : (toExpanded p).plugin = pluginNameOf p := by
  cases p <;> rfl

theorem pluginNameOf_applyExcludeTo (p : PluginConfiguration) (files : List String) :
    pluginNameOf (applyExcludeTo p files) = pluginNameOf p := by
  unfold applyExcludeTo
  by_cases h : files = [] <;> simp [h, pluginNameOf, toExpanded_plugin]

theorem firstMatch_update_self (ps : List PluginConfiguration) (name : String)
    (files : List String) (p : PluginConfiguration) (h : firstMatch ps name = some p) :
    firstMatch (updateMatchingPlugin ps name files) name = some (applyExcludeTo p files) := by
  induction ps with
  | nil => cases h
  | cons q rest ih =>
    by_cases hq : pluginNameOf q = name
    · rw [firstMatch, if_pos hq] at h
      injection h with h
      subst h
      rw [updateMatchingPlugin, if_pos hq, firstMatch,
        if_pos (by rw [pluginNameOf_applyExcludeTo]; exact hq)]
    · rw [firstMatch, if_neg hq] at h
      rw [updateMatchingPlugin, if_neg hq, firstMatch, if_neg hq]
      exact ih h

theorem firstMatch_update_other (ps : List PluginConfiguration) (n2 name : String)
    (files : List String) (h : n2 ≠ name) :
    firstMatch (updateMatchingPlugin ps n2 files) name = firstMatch ps name := by
  induction ps with
  | nil => rfl
  | cons q rest ih =>
    by_cases hq : pluginNameOf q = n2
    · have hne : pluginNameOf q ≠ name := by rw [hq]; exact h
      rw [updateMatchingPlugin, if_pos hq, firstMatch,
        if_neg (by rw [pluginNameOf_applyExcludeTo]; exact hne), firstMatch, if_neg hne]
    · rw [updateMatchingPlugin, if_neg hq]
      by_cases hname : pluginNameOf q = name
      · rw [firstMatch, if_pos hname, firstMatch, if_pos hname]
      · rw [firstMatch, if_neg hname, firstMatch, if_neg hname, ih]

theorem firstMatch_foldUpdate_other (m : List (String × List String)) :
    ∀ (ps : List PluginConfiguration) (name : String), (∀ e ∈ m, e.1 ≠ name) →
      firstMatch (m.foldl (fun ps2 e => updateMatchingPlugin ps2 e.1 e.2) ps) name =
        firstMatch ps name := by
  induction m with
  | nil => intro ps name _; rfl
  | cons e rest ih =>
    intro ps name h
    rw [List.foldl_cons]
    rw [ih _ name (fun e2 he2 => h e2 (List.mem_cons_of_mem e he2))]
    exact firstMatch_update_other ps e.1 name e.2 (h e (List.mem_cons_self e rest))

/-- C9: updatePluginsInNxJson performs no write when the document is absent,
unreadable, has no (or an empty) provider list, or the probe mapping is empty;
otherwise it writes the document back with only the plugins list changed, and
for each probe entry whose name first matches a descriptor that descriptor is
upgraded to structured form (name and remaining options preserved) with its
exclude list a duplicate-free union of the new offending files and its
previous exclude entries. -/
theorem updatePluginsInNxJson_spec :
    (∀ m, updatePluginsInNxJson .absent m = none) ∧
    (∀ m, updatePluginsInNxJson .unreadable m = none) ∧
    (∀ doc m, doc.plugins = none → updatePluginsInNxJson (.readable doc) m = none) ∧
    (∀ doc m, doc.plugins = some [] → updatePluginsInNxJson (.readable doc) m = none) ∧
    (∀ doc, updatePluginsInNxJson (.readable doc) [] = none) ∧
    (∀ doc ps m, doc.plugins = some ps → ps ≠ [] → m ≠ [] →
      (m.map Prod.fst).Nodup → (∀ e ∈ m, e.2 ≠ []) →
      ∃ ps2, updatePluginsInNxJson (.readable doc) m =
          some { plugins := some ps2, otherFields := doc.otherFields } ∧
        ∀ nf ∈ m, ∀ p, firstMatch ps nf.1 = some p →
          ∃ l, firstMatch ps2 nf.1 =
              some (.expanded { toExpanded p with exclude := some l }) ∧
            (toExpanded p).plugin = pluginNameOf p ∧ l.Nodup ∧
            ∀ x, x ∈ l ↔ (x ∈ nf.2 ∨ x ∈ (toExpanded p).exclude.getD [])) := by
  refine ⟨fun m => rfl, fun m => rfl, fun doc m h => ?_, fun doc m h => ?_, fun doc => ?_,
    fun doc ps m hplug hps hm hnd hne => ?_⟩
  · rw [updatePluginsInNxJson, if_pos (by rw [h]; exact Or.inr rfl)]
  · rw [updatePluginsInNxJson, if_pos (by rw [h]; exact Or.inr rfl)]
  · rw [updatePluginsInNxJson, if_pos (Or.inl rfl)]
  · rw [updatePluginsInNxJson, if_neg (by rw [hplug]; simp [hm, hps]), hplug]
    simp only [Option.getD_some]
    refine ⟨_, rfl, ?_⟩
    intro nf hnf p hp
    obtain ⟨m1, m2, hsplit⟩ := List.append_of_mem hnf
    have hnfnames : nf.1 ∉ m1.map Prod.fst ∧ nf.1 ∉ m2.map Prod.fst := by
      rw [hsplit, List.map_append, List.map_cons] at hnd
      rw [List.nodup_append] at hnd
      obtain ⟨_, hnd2, hdisj⟩ := hnd
      rw [List.nodup_cons] at hnd2
      exact ⟨fun hmem => hdisj hmem (List.mem_cons_self _ _), hnd2.1⟩
    have hm1 : ∀ e ∈ m1, e.1 ≠ nf.1 := by
      intro e he heq
      exact hnfnames.1 (heq ▸ List.mem_map_of_mem Prod.fst he)
    have hm2 : ∀ e ∈ m2, e.1 ≠ nf.1 := by
      intro e he heq
      exact hnfnames.2 (heq ▸ List.mem_map_of_mem Prod.fst he)
    rw [hsplit, List.foldl_append, List.foldl_cons]
    rw [firstMatch_foldUpdate_other m2 _ nf.1 hm2]
    rw [firstMatch_update_self _ _ _ p (by rw [firstMatch_foldUpdate_other m1 ps nf.1 hm1]; exact hp)]
    have hfiles : nf.2 ≠ [] := hne nf hnf
    refine ⟨addFilesToSet (addFilesToSet [] nf.2) ((toExpanded p).exclude.getD []), ?_, toExpanded_plugin p, ?_, ?_⟩
    · rw [applyExcludeTo]
      simp [hfiles]
    · exact nodup_addFilesToSet _ _ (nodup_addFilesToSet _ [] List.nodup_nil)
    · intro x
      rw [mem_addFilesToSet, mem_addFilesToSet]
      simp

/-- Witness for C9 at a document holding one bare-string descriptor and a
probe result citing one file for it. -/
theorem updatePluginsInNxJson_spec_witness :
    ((⟨some [.str "p1"], "rest"⟩ : NxJsonConfiguration).plugins = some [.str "p1"] ∧
      ([PluginConfiguration.str "p1"] ≠ [] ∧ ([("p1", ["f1"])] : List (String × List String)) ≠ [])) ∧
    (∃ ps2, updatePluginsInNxJson (.readable ⟨some [.str "p1"], "rest"⟩) [("p1", ["f1"])] =
        some { plugins := some ps2, otherFields := "rest" } ∧
      ∀ nf ∈ [("p1", ["f1"])], ∀ p, firstMatch [PluginConfiguration.str "p1"] nf.1 = some p →
        ∃ l, firstMatch ps2 nf.1 =
            some (.expanded { toExpanded p with exclude := some l }) ∧
          (toExpanded p).plugin = pluginNameOf p ∧ l.Nodup ∧
          ∀ x, x ∈ l ↔ (x ∈ nf.2 ∨ x ∈ (toExpanded p).exclude.getD [])) :=
  ⟨⟨rfl, by decide, by decide⟩,
    updatePluginsInNxJson_spec.2.2.2.2.2 ⟨some [.str "p1"], "rest"⟩ [.str "p1"]
      [("p1", ["f1"])] rfl (by decide) (by decide) (by decide) (by decide)⟩

/-! ### Metadata phase ordering (C3) and merge precedence (C4) -/

theorem lookupAssoc_setAssoc_self {α : Type} (l : List (String × α)) (k : String) (v : α) :
    lookupAssoc (setAssoc l k v) k = some v := by
  induction l with
  | nil => simp [setAssoc, lookupAssoc]
  | cons e rest ih =>
    by_cases h : e.1 = k
    · rw [setAssoc, if_pos h, lookupAssoc, if_pos h]
    · rw [setAssoc, if_neg h, lookupAssoc, if_neg h]
      exact ih

theorem collectMetadata_acc (order : List LoadedNxPlugin) :
    ∀ acc : List (List (String × ProjectMetadata) × String) × List ProjectGraphErrorKind,
      (order.foldl metadataPhaseStep acc).1 = acc.1 ++ (collectMetadataResults order).1 := by
  induction order with
  | nil => intro acc; simp [collectMetadataResults]
  | cons p rest ih =>
    intro acc
    rw [List.foldl_cons]
    rw [ih (metadataPhaseStep acc p)]
    have hr : (collectMetadataResults (p :: rest)).1 =
        (metadataPhaseStep ([], []) p).1 ++ (collectMetadataResults rest).1 := by
      show (rest.foldl metadataPhaseStep (metadataPhaseStep ([], []) p)).1 = _
      rw [ih (metadataPhaseStep ([], []) p)]
    rw [hr]
    cases hm : p.createMetadata with
    | none => simp [metadataPhaseStep, hm]
    | some r =>
      cases r with
      | ok md => simp [metadataPhaseStep, hm]
      | threw c => simp [metadataPhaseStep, hm]

theorem applyMetadataResults_append (g : ProjectGraph) (sm : ConfigurationSourceMaps)
    (rs1 rs2 : List (List (String × ProjectMetadata) × String)) :
    applyMetadataResults g sm (rs1 ++ rs2) =
      applyMetadataResults (applyMetadataResults g sm rs1).1
        (applyMetadataResults g sm rs1).2 rs2 := by
  unfold applyMetadataResults
  rw [List.foldl_append]

theorem applyCollect_eq_spec (plugins : List LoadedNxPlugin) :
    ∀ acc : ProjectGraph × ConfigurationSourceMaps,
      applyMetadataResults acc.1 acc.2 (collectMetadataResults plugins).1 =
        plugins.foldl applyMetadataSpecStep acc := by
  induction plugins with
  | nil => intro acc; simp [collectMetadataResults, applyMetadataResults]
  | cons p rest ih =>
    intro acc
    have hc : (collectMetadataResults (p :: rest)).1 =
        (metadataPhaseStep ([], []) p).1 ++ (collectMetadataResults rest).1 := by
      show (rest.foldl metadataPhaseStep (metadataPhaseStep ([], []) p)).1 = _
      exact collectMetadata_acc rest (metadataPhaseStep ([], []) p)
    rw [hc, applyMetadataResults_append, List.foldl_cons]
    have hstep : applyMetadataResults acc.1 acc.2 (metadataPhaseStep ([], []) p).1 =
        applyMetadataSpecStep acc p := by
      cases hm : p.createMetadata with
      | none => simp [metadataPhaseStep, hm, applyMetadataResults, applyMetadataSpecStep]
      | some r =>
        cases r with
        | ok md => simp [metadataPhaseStep, hm, applyMetadataResults, applyMetadataSpecStep]
        | threw c => simp [metadataPhaseStep, hm, applyMetadataResults, applyMetadataSpecStep]
    rw [hstep]
    exact ih (applyMetadataSpecStep acc p)

/-- C3 (amended): successful metadata results are buffered and applied only
after every provider has settled, in the order the provider invocations
completed; when the completions occur in provider-list order, the application
coincides with the strict provider-list-order reading of the spec. -/
theorem applyProjectMetadata_buffered_completion_order
    (g : ProjectGraph) (sm : ConfigurationSourceMaps) (plugins : List LoadedNxPlugin) :
    ((applyProjectMetadata g sm plugins).1, (applyProjectMetadata g sm plugins).2.1) =
      applyMetadataInSpecOrder g sm plugins := by
  show ((applyMetadataResults g sm (collectMetadataResults plugins).1).1,
      (applyMetadataResults g sm (collectMetadataResults plugins).1).2) = _
  rw [Prod.mk.eta]
  exact applyCollect_eq_spec plugins (g, sm)

/-- C3 (counterexample): with two providers both setting the same scalar
property, the graph produced when the second provider settles first differs
from the graph produced when they settle in provider-list order, so results
are not applied in strict provider-list order regardless of completion
order. -/
theorem applyProjectMetadata_completion_order_matters :
    [mdPluginTwo, mdPluginOne].Perm [mdPluginOne, mdPluginTwo] ∧
    applyProjectMetadata mdProbeGraph [] [mdPluginTwo, mdPluginOne] ≠
      applyProjectMetadata mdProbeGraph [] [mdPluginOne, mdPluginTwo] := by
  constructor
  · exact List.Perm.swap mdPluginOne mdPluginTwo []
  · intro h
    exact absurd (congrArg Prod.fst h) (by decide)

/-- C4: applying provider P1 and then provider P2 to the same scalar property
of the same project leaves the value set by P2 and attributes the property to
P2 in the source map of that project; swapping the application order leaves
the value set by P1, so the merge is not commutative in provider order. -/
theorem metadata_merge_last_provider_wins
    (x k v1 v2 p1 p2 : String) (oldMd : ProjectMetadata) (projSm : ProjectSourceMap)
    (ver : Option String) (ext : List String) (gdeps : List RawProjectGraphDependency)
    (hne : v1 ≠ v2) :
    ∃ md12 sm12 md21,
      lookupAssoc (applyMetadataResults ⟨ver, [(x, oldMd)], ext, gdeps⟩ [(x, projSm)]
        [([(x, [(k, .scalar v1)])], p1), ([(x, [(k, .scalar v2)])], p2)]).1.nodes x = some md12 ∧
      lookupAssoc md12 k = some (.scalar v2) ∧
      lookupAssoc (applyMetadataResults ⟨ver, [(x, oldMd)], ext, gdeps⟩ [(x, projSm)]
        [([(x, [(k, .scalar v1)])], p1), ([(x, [(k, .scalar v2)])], p2)]).2 x = some sm12 ∧
      lookupAssoc sm12 k = some (none, p2) ∧
      lookupAssoc (applyMetadataResults ⟨ver, [(x, oldMd)], ext, gdeps⟩ [(x, projSm)]
        [([(x, [(k, .scalar v2)])], p2), ([(x, [(k, .scalar v1)])], p1)]).1.nodes x = some md21 ∧
      lookupAssoc md21 k = some (.scalar v1) ∧
      lookupAssoc md12 k ≠ lookupAssoc md21 k := by
  have hstep : ∀ (md : ProjectMetadata) (s : ProjectSourceMap) (pn v : String),
      applyMetadataToProject (⟨ver, [(x, md)], ext, gdeps⟩, [(x, s)]) pn (x, [(k, .scalar v)]) =
        (⟨ver, [(x, setAssoc md k (.scalar v))], ext, gdeps⟩, [(x, setAssoc s k (none, pn))]) := by
    intro md s pn v
    simp [applyMetadataToProject, lookupAssoc, mergeMetadata, mergeMetadataStep, setAssoc]
  have hrun : ∀ (pa pb va vb : String),
      applyMetadataResults ⟨ver, [(x, oldMd)], ext, gdeps⟩ [(x, projSm)]
        [([(x, [(k, .scalar va)])], pa), ([(x, [(k, .scalar vb)])], pb)] =
      (⟨ver, [(x, setAssoc (setAssoc oldMd k (.scalar va)) k (.scalar vb))], ext, gdeps⟩,
       [(x, setAssoc (setAssoc projSm k (none, pa)) k (none, pb))]) := by
    intro pa pb va vb
    simp only [applyMetadataResults, List.foldl_cons, List.foldl_nil]
    rw [hstep, hstep]
  refine ⟨setAssoc (setAssoc oldMd k (.scalar v1)) k (.scalar v2),
    setAssoc (setAssoc projSm k (none, p1)) k (none, p2),
    setAssoc (setAssoc oldMd k (.scalar v2)) k (.scalar v1), ?_, ?_, ?_, ?_, ?_, ?_, ?_⟩
  · rw [hrun p1 p2 v1 v2]
    simp [lookupAssoc]
  · exact lookupAssoc_setAssoc_self _ k _
  · rw [hrun p1 p2 v1 v2]
    simp [lookupAssoc]
  · exact lookupAssoc_setAssoc_self _ k _
  · rw [hrun p2 p1 v2 v1]
    simp [lookupAssoc]
  · exact lookupAssoc_setAssoc_self _ k _
  · rw [lookupAssoc_setAssoc_self, lookupAssoc_setAssoc_self]
    intro h
    injection h with h
    injection h with h
    exact hne h.symm

/-- Witness for C4 at two concrete providers writing the owner property. -/
theorem metadata_merge_last_provider_wins_witness :
    ("one" : String) ≠ "two" ∧
    (∃ md12 sm12 md21,
      lookupAssoc (applyMetadataResults ⟨none, [("projX", [])], [], []⟩ [("projX", [])]
        [([("projX", [("owner", .scalar "one")])], "plugin-one"),
         ([("projX", [("owner", .scalar "two")])], "plugin-two")]).1.nodes "projX" = some md12 ∧
      lookupAssoc md12 "owner" = some (.scalar "two") ∧
      lookupAssoc (applyMetadataResults ⟨none, [("projX", [])], [], []⟩ [("projX", [])]
        [([("projX", [("owner", .scalar "one")])], "plugin-one"),
         ([("projX", [("owner", .scalar "two")])], "plugin-two")]).2 "projX" = some sm12 ∧
      lookupAssoc sm12 "owner" = some (none, "plugin-two") ∧
      lookupAssoc (applyMetadataResults ⟨none, [("projX", [])], [], []⟩ [("projX", [])]
        [([("projX", [("owner", .scalar "two")])], "plugin-two"),
         ([("projX", [("owner", .scalar "one")])], "plugin-one")]).1.nodes "projX" = some md21 ∧
      lookupAssoc md21 "owner" = some (.scalar "one") ∧
      lookupAssoc md12 "owner" ≠ lookupAssoc md21 "owner") :=
  ⟨by decide,
    metadata_merge_last_provider_wins "projX" "owner" "one" "two" "plugin-one" "plugin-two"
      [] [] none [] [] (by decide)⟩

/-! ### Dependency phase with a single failing provider (C2) -/

theorem knownGraphNode_congr (g1 g2 : ProjectGraph) (hn : g1.nodes = g2.nodes)
    (he : g1.externalNodes = g2.externalNodes) (s : String) :
    knownGraphNode g1 s = knownGraphNode g2 s := by
  unfold knownGraphNode
  rw [hn, he]

theorem addDependency_ok_props (g : ProjectGraph) (d : RawProjectGraphDependency)
    (g2 : ProjectGraph) (h : addDependency g d = .ok g2) :
    g2.nodes = g.nodes ∧ g2.externalNodes = g.externalNodes ∧
    ∀ d2 ∈ g.dependencies, d2 ∈ g2.dependencies := by
  unfold addDependency at h
  by_cases hc : (knownGraphNode g d.source && knownGraphNode g d.target) = true
  · rw [if_pos hc] at h
    by_cases hm : d ∈ g.dependencies
    · rw [if_pos hm] at h
      injection h with h
      subst h
      exact ⟨rfl, rfl, fun d2 hd => hd⟩
    · rw [if_neg hm] at h
      injection h with h
      subst h
      exact ⟨rfl, rfl, fun d2 hd => List.mem_append_left _ hd⟩
  · rw [if_neg hc] at h
    cases h

theorem addDependency_valid_mem (g : ProjectGraph) (d : RawProjectGraphDependency)
    (hs : knownGraphNode g d.source = true) (ht : knownGraphNode g d.target = true) :
    ∃ g2, addDependency g d = .ok g2 ∧ d ∈ g2.dependencies := by
  unfold addDependency
  rw [if_pos (by rw [hs, ht]; rfl)]
  by_cases hm : d ∈ g.dependencies
  · rw [if_pos hm]
    exact ⟨g, rfl, hm⟩
  · rw [if_neg hm]
    exact ⟨_, rfl, by simp⟩

theorem addPluginDependencies_props (deps : List RawProjectGraphDependency) :
    ∀ g : ProjectGraph,
      (addPluginDependencies g deps).1.nodes = g.nodes ∧
      (addPluginDependencies g deps).1.externalNodes = g.externalNodes ∧
      ∀ d ∈ g.dependencies, d ∈ (addPluginDependencies g deps).1.dependencies := by
  induction deps with
  | nil => intro g; exact ⟨rfl, rfl, fun d hd => hd⟩
  | cons d rest ih =>
    intro g
    cases h : addDependency g d with
    | ok g2 =>
      have hred : addPluginDependencies g (d :: rest) = addPluginDependencies g2 rest := by
        simp only [addPluginDependencies, h]
      obtain ⟨hn, he, hmono⟩ := addDependency_ok_props g d g2 h
      obtain ⟨hn2, he2, hmono2⟩ := ih g2
      rw [hred]
      exact ⟨hn2.trans hn, he2.trans he, fun d2 hd2 => hmono2 d2 (hmono d2 hd2)⟩
    | error msg =>
      have hred : addPluginDependencies g (d :: rest) = (g, some msg) := by
        simp only [addPluginDependencies, h]
      rw [hred]
      exact ⟨rfl, rfl, fun d2 hd2 => hd2⟩

theorem addPluginDependencies_valid (deps : List RawProjectGraphDependency) :
    ∀ g : ProjectGraph,
      (∀ d ∈ deps, knownGraphNode g d.source = true ∧ knownGraphNode g d.target = true) →
      (addPluginDependencies g deps).2 = none ∧
      ∀ d ∈ deps, d ∈ (addPluginDependencies g deps).1.dependencies := by
  induction deps with
  | nil => intro g _; exact ⟨rfl, fun d hd => absurd hd (List.not_mem_nil d)⟩
  | cons d rest ih =>
    intro g hv
    obtain ⟨hs, ht⟩ := hv d (List.mem_cons_self d rest)
    obtain ⟨g2, hok, hdm⟩ := addDependency_valid_mem g d hs ht
    obtain ⟨hn, he, hmono⟩ := addDependency_ok_props g d g2 hok
    have hred : addPluginDependencies g (d :: rest) = addPluginDependencies g2 rest := by
      simp only [addPluginDependencies, hok]
    have hv2 : ∀ d2 ∈ rest, knownGraphNode g2 d2.source = true ∧
        knownGraphNode g2 d2.target = true := by
      intro d2 hd2
      obtain ⟨h1, h2⟩ := hv d2 (List.mem_cons_of_mem d hd2)
      rw [knownGraphNode_congr g2 g hn he, knownGraphNode_congr g2 g hn he]
      exact ⟨h1, h2⟩
    obtain ⟨hnone, hall⟩ := ih g2 hv2
    obtain ⟨_, _, hmono2⟩ := addPluginDependencies_props rest g2
    rw [hred]
    refine ⟨hnone, ?_⟩
    intro d2 hd2
    rcases List.mem_cons.mp hd2 with rfl | hd3
    · exact hmono2 d2 hdm
    · exact hall d2 hd3

theorem dependencyPhaseStep_props (st : ProjectGraph × List ProjectGraphErrorKind)
    (p : LoadedNxPlugin) :
    (dependencyPhaseStep st p).1.nodes = st.1.nodes ∧
    (dependencyPhaseStep st p).1.externalNodes = st.1.externalNodes ∧
    ∀ d ∈ st.1.dependencies, d ∈ (dependencyPhaseStep st p).1.dependencies := by
  cases hc : p.createDependencies with
  | none =>
    have hred : dependencyPhaseStep st p = st := by
      simp only [dependencyPhaseStep, hc]
    rw [hred]
    exact ⟨rfl, rfl, fun d hd => hd⟩
  | some r =>
    cases r with
    | threw cause =>
      have hred : dependencyPhaseStep st p =
          (st.1, st.2 ++ [.processDependenciesError p.name cause]) := by
        simp only [dependencyPhaseStep, hc]
      rw [hred]
      exact ⟨rfl, rfl, fun d hd => hd⟩
    | ok deps =>
      obtain ⟨hn, he, hmono⟩ := addPluginDependencies_props deps st.1
      cases hr : addPluginDependencies st.1 deps with
      | mk g2 opt =>
        rw [hr] at hn he hmono
        cases opt with
        | none =>
          have hred : dependencyPhaseStep st p = (g2, st.2) := by
            simp only [dependencyPhaseStep, hc, hr]
          rw [hred]
          exact ⟨hn, he, hmono⟩
        | some c =>
          have hred : dependencyPhaseStep st p =
              (g2, st.2 ++ [.processDependenciesError p.name c]) := by
            simp only [dependencyPhaseStep, hc, hr]
          rw [hred]
          exact ⟨hn, he, hmono⟩

theorem dependencyPhaseStep_threw (st : ProjectGraph × List ProjectGraphErrorKind)
    (p : LoadedNxPlugin) (cause : String) (hp : p.createDependencies = some (.threw cause)) :
    dependencyPhaseStep st p = (st.1, st.2 ++ [.processDependenciesError p.name cause]) := by
  unfold dependencyPhaseStep
  rw [hp]

theorem dependencyPhaseStep_okValid (st : ProjectGraph × List ProjectGraphErrorKind)
    (p : LoadedNxPlugin) (deps : List RawProjectGraphDependency)
    (hp : p.createDependencies = some (.ok deps))
    (hv : ∀ d ∈ deps, knownGraphNode st.1 d.source = true ∧
      knownGraphNode st.1 d.target = true) :
    (dependencyPhaseStep st p).2 = st.2 ∧
    ∀ d ∈ deps, d ∈ (dependencyPhaseStep st p).1.dependencies := by
  obtain ⟨hnone, hall⟩ := addPluginDependencies_valid deps st.1 hv
  cases hr : addPluginDependencies st.1 deps with
  | mk g2 opt =>
    rw [hr] at hnone hall
    cases opt with
    | none =>
      have hred : dependencyPhaseStep st p = (g2, st.2) := by
        simp only [dependencyPhaseStep, hp, hr]
      rw [hred]
      exact ⟨rfl, hall⟩
    | some c => simp at hnone

theorem dependencyFold_props (order : List LoadedNxPlugin) :
    ∀ st : ProjectGraph × List ProjectGraphErrorKind,
      (order.foldl dependencyPhaseStep st).1.nodes = st.1.nodes ∧
      (order.foldl dependencyPhaseStep st).1.externalNodes = st.1.externalNodes ∧
      ∀ d ∈ st.1.dependencies, d ∈ (order.foldl dependencyPhaseStep st).1.dependencies := by
  induction order with
  | nil => intro st; exact ⟨rfl, rfl, fun d hd => hd⟩
  | cons p rest ih =>
    intro st
    rw [List.foldl_cons]
    obtain ⟨hn, he, hm⟩ := dependencyPhaseStep_props st p
    obtain ⟨hn2, he2, hm2⟩ := ih (dependencyPhaseStep st p)
    exact ⟨hn2.trans hn, he2.trans he, fun d hd => hm2 d (hm d hd)⟩

theorem dependencyFold_okValid (order : List LoadedNxPlugin) (g0 : ProjectGraph) :
    ∀ st : ProjectGraph × List ProjectGraphErrorKind,
      st.1.nodes = g0.nodes → st.1.externalNodes = g0.externalNodes →
      (∀ p ∈ order, ∃ deps, p.createDependencies = some (.ok deps) ∧
        ∀ d ∈ deps, knownGraphNode g0 d.source = true ∧
          knownGraphNode g0 d.target = true) →
      (order.foldl dependencyPhaseStep st).2 = st.2 := by
  induction order with
  | nil => intro st _ _ _; rfl
  | cons p rest ih =>
    intro st hn he hall
    obtain ⟨deps, hps, hv⟩ := hall p (List.mem_cons_self p rest)
    have hv2 : ∀ d ∈ deps, knownGraphNode st.1 d.source = true ∧
        knownGraphNode st.1 d.target = true := by
      intro d hd
      obtain ⟨h1, h2⟩ := hv d hd
      rw [knownGraphNode_congr st.1 g0 hn he, knownGraphNode_congr st.1 g0 hn he]
      exact ⟨h1, h2⟩
    obtain ⟨herr, _⟩ := dependencyPhaseStep_okValid st p deps hps hv2
    obtain ⟨hsn, hse, _⟩ := dependencyPhaseStep_props st p
    rw [List.foldl_cons]
    rw [ih (dependencyPhaseStep st p) (hsn.trans hn) (hse.trans he)
      (fun q hq => hall q (List.mem_cons_of_mem p hq))]
    exact herr

theorem dependencyFold_mem (order : List LoadedNxPlugin) (g0 : ProjectGraph) :
    ∀ (st : ProjectGraph × List ProjectGraphErrorKind) (p : LoadedNxPlugin)
      (deps : List RawProjectGraphDependency),
      st.1.nodes = g0.nodes → st.1.externalNodes = g0.externalNodes →
      p ∈ order → p.createDependencies = some (.ok deps) →
      (∀ d ∈ deps, knownGraphNode g0 d.source = true ∧
        knownGraphNode g0 d.target = true) →
      ∀ d ∈ deps, d ∈ (order.foldl dependencyPhaseStep st).1.dependencies := by
  induction order with
  | nil =>
    intro st p deps _ _ hmem
    cases hmem
  | cons q rest ih =>
    intro st p deps hn he hmem hps hv d hd
    rw [List.foldl_cons]
    obtain ⟨hsn, hse, _⟩ := dependencyPhaseStep_props st q
    rcases List.mem_cons.mp hmem with rfl | hmem2
    · have hv2 : ∀ d2 ∈ deps, knownGraphNode st.1 d2.source = true ∧
          knownGraphNode st.1 d2.target = true := by
        intro d2 hd2
        obtain ⟨h1, h2⟩ := hv d2 hd2
        rw [knownGraphNode_congr st.1 g0 hn he, knownGraphNode_congr st.1 g0 hn he]
        exact ⟨h1, h2⟩
      obtain ⟨_, hmemd⟩ := dependencyPhaseStep_okValid st p deps hps hv2
      exact (dependencyFold_props rest (dependencyPhaseStep st p)).2.2 d (hmemd d hd)
    · exact ih (dependencyPhaseStep st q) p deps (hsn.trans hn) (hse.trans he) hmem2 hps hv d hd

theorem metadataFold_none (order : List LoadedNxPlugin) :
    ∀ acc, (∀ p ∈ order, p.createMetadata = none) →
      order.foldl metadataPhaseStep acc = acc := by
  induction order with
  | nil => intro acc _; rfl
  | cons p rest ih =>
    intro acc h
    rw [List.foldl_cons]
    have hp : metadataPhaseStep acc p = acc := by
      unfold metadataPhaseStep
      rw [h p (List.mem_cons_self p rest)]
    rw [hp]
    exact ih acc (fun q hq => h q (List.mem_cons_of_mem p hq))

theorem applyProjectMetadata_none (g : ProjectGraph) (sm : ConfigurationSourceMaps)
    (order : List LoadedNxPlugin) (h : ∀ p ∈ order, p.createMetadata = none) :
    applyProjectMetadata g sm order = (g, sm, []) := by
  have hc : collectMetadataResults order = ([], []) := metadataFold_none order ([], []) h
  simp only [applyProjectMetadata]
  rw [hc]
  rfl

/-- C2: when exactly one of N dependency-contributing providers throws (and
the others contribute edges with known endpoints), the phase raises a single
aggregate error whose error list is exactly one process-dependencies entry
naming the throwing provider, and whose attached graph contains every edge
contributed by the other providers - regardless of the completion order. -/
theorem updateProjectGraphWithPlugins_single_failure
    (g : ProjectGraph) (sm : ConfigurationSourceMaps)
    (plugins depOrder mdOrder : List LoadedNxPlugin)
    (bad : LoadedNxPlugin) (cause : String)
    (hcount : plugins.count bad = 1)
    (hbad : bad.createDependencies = some (.threw cause))
    (hok : ∀ p ∈ plugins, p ≠ bad → ∃ deps, p.createDependencies = some (.ok deps) ∧
      ∀ d ∈ deps, knownGraphNode g d.source = true ∧ knownGraphNode g d.target = true)
    (hmd : ∀ p ∈ plugins, p.createMetadata = none)
    (hdp : depOrder.Perm plugins) (hmp : mdOrder.Perm plugins) :
    ∃ gF smF,
      updateProjectGraphWithPlugins g sm depOrder mdOrder =
        .error ([.processDependenciesError bad.name cause], gF, smF) ∧
      ∀ p ∈ plugins, ∀ deps, p.createDependencies = some (.ok deps) →
        ∀ d ∈ deps, d ∈ gF.dependencies := by
  have hbadplug : bad ∈ plugins := by
    refine List.count_pos_iff.mp ?_
    rw [hcount]
    exact Nat.one_pos
  have hbadmem : bad ∈ depOrder := hdp.mem_iff.mpr hbadplug
  obtain ⟨l1, l2, hsplit⟩ := List.append_of_mem hbadmem
  have hcount2 : depOrder.count bad = 1 := by
    rw [hdp.count_eq bad]
    exact hcount
  have hzero : l1.count bad = 0 ∧ l2.count bad = 0 := by
    rw [hsplit, List.count_append, List.count_cons] at hcount2
    simp at hcount2
    omega
  have hl1 : bad ∉ l1 := List.count_eq_zero.mp hzero.1
  have hl2 : bad ∉ l2 := List.count_eq_zero.mp hzero.2
  have hmem12 : ∀ p, p ∈ l1 ∨ p ∈ l2 →
      ∃ deps, p.createDependencies = some (.ok deps) ∧
        ∀ d ∈ deps, knownGraphNode g d.source = true ∧
          knownGraphNode g d.target = true := by
    intro p hp
    have hpdep : p ∈ depOrder := by
      rw [hsplit]
      rcases hp with hp | hp
      · exact List.mem_append_left _ hp
      · exact List.mem_append_right _ (List.mem_cons_of_mem bad hp)
    have hpplug : p ∈ plugins := hdp.mem_iff.mp hpdep
    have hpne : p ≠ bad := by
      rintro rfl
      rcases hp with hp | hp
      · exact hl1 hp
      · exact hl2 hp
    exact hok p hpplug hpne
  have hphase2 : (dependencyPhase g depOrder).2 =
      [.processDependenciesError bad.name cause] := by
    unfold dependencyPhase
    rw [hsplit, List.foldl_append, List.foldl_cons]
    set st1 := List.foldl dependencyPhaseStep
      ((g, []) : ProjectGraph × List ProjectGraphErrorKind) l1 with hst1
    have e1 : st1.2 = ((g, []) : ProjectGraph × List ProjectGraphErrorKind).2 :=
      dependencyFold_okValid l1 g (g, []) rfl rfl (fun p hp => hmem12 p (Or.inl hp))
    have eprops := dependencyFold_props l1 ((g, []) : ProjectGraph × List ProjectGraphErrorKind)
    have e2 : dependencyPhaseStep st1 bad =
        (st1.1, st1.2 ++ [.processDependenciesError bad.name cause]) :=
      dependencyPhaseStep_threw st1 bad cause hbad
    rw [e2]
    have e3 : (List.foldl dependencyPhaseStep
        (st1.1, st1.2 ++ [ProjectGraphErrorKind.processDependenciesError bad.name cause]) l2).2 =
        (st1.1, st1.2 ++ [ProjectGraphErrorKind.processDependenciesError bad.name cause]).2 :=
      dependencyFold_okValid l2 g _ (by exact eprops.1) (by exact eprops.2.1)
        (fun p hp => hmem12 p (Or.inr hp))
    rw [e3]
    show st1.2 ++ [ProjectGraphErrorKind.processDependenciesError bad.name cause] = _
    rw [e1]
    rfl
  have hphasemem : ∀ p ∈ plugins, ∀ deps, p.createDependencies = some (.ok deps) →
      ∀ d ∈ deps, d ∈ (dependencyPhase g depOrder).1.dependencies := by
    intro p hp deps hpd d hd
    have hpne : p ≠ bad := by
      rintro rfl
      rw [hbad] at hpd
      simp at hpd
    obtain ⟨deps0, hpd0, hv0⟩ := hok p hp hpne
    rw [hpd0] at hpd
    injection hpd with hpd
    injection hpd with hpd
    subst hpd
    exact dependencyFold_mem depOrder g (g, []) p deps0 rfl rfl
      (hdp.mem_iff.mpr hp) hpd0 hv0 d hd
  have hmdnone : ∀ p ∈ mdOrder, p.createMetadata = none :=
    fun p hp => hmd p (hmp.mem_iff.mp hp)
  refine ⟨(dependencyPhase g depOrder).1, sm, ?_, hphasemem⟩
  simp only [updateProjectGraphWithPlugins]
  rw [applyProjectMetadata_none (dependencyPhase g depOrder).1 sm mdOrder hmdnone]
  rw [hphase2]
  simp

/-- Witness for C2 at two providers of which the second throws. -/
theorem updateProjectGraphWithPlugins_single_failure_witness :
    ([depPluginOk, depPluginBad].count depPluginBad = 1) ∧
    (∃ gF smF,
      updateProjectGraphWithPlugins depProbeGraph [] [depPluginOk, depPluginBad]
          [depPluginOk, depPluginBad] =
        .error ([.processDependenciesError depPluginBad.name "boom"], gF, smF) ∧
      ∀ p ∈ [depPluginOk, depPluginBad], ∀ deps,
        p.createDependencies = some (.ok deps) →
        ∀ d ∈ deps, d ∈ gF.dependencies) :=
  ⟨by decide,
    updateProjectGraphWithPlugins_single_failure depProbeGraph []
      [depPluginOk, depPluginBad] [depPluginOk, depPluginBad] [depPluginOk, depPluginBad]
      depPluginBad "boom" (by decide) rfl
      (by
        intro p hp hne
        rcases List.mem_cons.mp hp with rfl | hp2
        · exact ⟨[depEdgeOk], rfl, by decide⟩
        · rcases List.mem_cons.mp hp2 with rfl | hp3
          · exact absurd rfl hne
          · cases hp3)
      (by
        intro p hp
        rcases List.mem_cons.mp hp with rfl | hp2
        · rfl
        · rcases List.mem_cons.mp hp2 with rfl | hp3
          · rfl
          · cases hp3)
      (List.Perm.refl _) (List.Perm.refl _)⟩

end Nx